import Mathlib

set_option maxRecDepth 8000

/-!
Verification of wisshrd (`main.go`), an interactive SSH connection-string
helper.  The pure logic of the program is embedded shallowly below:

* Go strings are modelled as Lean `String`s; the handful of `strings` /
  `unicode` standard-library operations the program uses (`TrimSpace`,
  `HasPrefix`, `TrimPrefix`, `Contains`, `Fields`, `Split`, `ToLower`) are
  re-implemented structurally on the character list of the string.
* `time.Time` values are modelled as `Nat` timestamps, passed explicitly
  where the Go code calls `time.Now()`.
* The history file on disk is modelled by `HistFile`; JSON documents by the
  `JsonVal` tree, with `marshalStoredData` / `unmarshalStoredData` playing
  the role of `encoding/json` on the `StoredData` struct (all-or-nothing
  decoding of well-formed documents).
* The external fuzzy picker (`fzf`) is modelled at its exit boundary by
  `CmdResult` (captured stdout plus exit condition), exactly the data
  `runFzf` inspects.
* `main` is modelled by `mainRun` over an `Env` record carrying every
  external input of one run; the data handed to `saveStoredData` at the end
  of the run is carried in the `MainOutcome.done` constructor.
-/

/-- Whitespace predicate of Go `unicode.IsSpace` restricted to the Latin-1
range (space, tab, newline, vertical tab, form feed, carriage return, NEL,
NBSP); this is the predicate behind `strings.TrimSpace` and
`strings.Fields`. -/
def isSpaceGo (c : Char) : Bool :=
  c == ' ' || c == '\t' || c == '\n' || c == '\x0b' || c == '\x0c' || c == '\r' ||
    c == '\x85' || c == '\xa0'

/-- The empty string (used where the Go code writes a literal). -/
def emptyStr : String := ""

/-- Character-list core of `strings.TrimSpace`: drop whitespace from both
ends. -/
def trimCharsGo (cs : List Char) : List Char :=
  ((cs.dropWhile isSpaceGo).reverse.dropWhile isSpaceGo).reverse

/-- Go `strings.TrimSpace`. -/
def goTrimSpace (s : String) : String := String.mk (trimCharsGo s.toList)

/-- Go `strings.HasPrefix`. -/
def goStartsWith (s pre : String) : Bool := pre.toList.isPrefixOf s.toList

/-- Go `strings.TrimPrefix`. -/
def goTrimPre (s pre : String) : String :=
  if goStartsWith s pre then String.mk (s.toList.drop pre.toList.length) else s

/-- Go `strings.Contains(s, string(c))` for a one-character needle. -/
def goContainsChar (s : String) (c : Char) : Bool := s.toList.contains c

/-- Split a character list at every character satisfying `p`, keeping empty
segments (the behaviour of Go `strings.Split`). -/
def splitByChars (p : Char → Bool) (cs : List Char) : List (List Char) :=
  cs.foldr
    (fun c acc =>
      if p c then [] :: acc
      else
        match acc with
        | [] => [[c]]
        | g :: gs => (c :: g) :: gs)
    [[]]

/-- Go `strings.Split(s, "\n")`. -/
def goSplitNl (s : String) : List String :=
  (splitByChars (fun c => c == '\n') s.toList).map String.mk

/-- Go `strings.Fields`: split at whitespace and drop the empty segments. -/
def goFields (s : String) : List String :=
  ((splitByChars isSpaceGo s.toList).filter (fun g => !g.isEmpty)).map String.mk

/-- Go `strings.ToLower`, modelled by the per-character ASCII case mapping
`Char.toLower` (the program only compares the result against the ASCII
letter "y"). -/
def goToLower (s : String) : String := String.mk (s.toList.map Char.toLower)

/-- `StoredEntry` of `main.go`: one remembered value with its timestamps
(fields `Value`, `LastUsed`, `CreatedAt`). -/
structure StoredEntry where
  value : String
  lastUsed : Nat
  createdAt : Nat
deriving DecidableEq

/-- `StoredData` of `main.go`: the persisted history document. -/
structure StoredData where
  keys : List StoredEntry
  accounts : List StoredEntry
  hosts : List StoredEntry
  jumps : List StoredEntry
deriving DecidableEq

/-- `SSHConfig` of `main.go`: the per-category candidate lists. -/
structure SSHConfig where
  keys : List StoredEntry
  accounts : List StoredEntry
  hosts : List StoredEntry
  jumps : List StoredEntry
deriving DecidableEq

/-- The value/createdAt projection used for the order-insensitive
round-trip comparison. -/
def entryVC (e : StoredEntry) : String × Nat := (e.value, e.createdAt)

/-- JSON documents, as produced and consumed by `encoding/json` for
`StoredData`. -/
inductive JsonVal where
  | str : String → JsonVal
  | num : Nat → JsonVal
  | arr : List JsonVal → JsonVal
  | obj : List (String × JsonVal) → JsonVal

/-- `json.Marshal` of one `StoredEntry` (struct tags `value`, `last_used`,
`created_at`). -/
def marshalEntry (e : StoredEntry) : JsonVal :=
  JsonVal.obj [("value", JsonVal.str e.value), ("last_used", JsonVal.num e.lastUsed),
    ("created_at", JsonVal.num e.createdAt)]

/-- `json.MarshalIndent` of `StoredData` (struct tags `keys`, `accounts`,
`hosts`, `jumps`); indentation is display-only and not modelled. -/
def marshalStoredData (d : StoredData) : JsonVal :=
  JsonVal.obj [("keys", JsonVal.arr (d.keys.map marshalEntry)),
    ("accounts", JsonVal.arr (d.accounts.map marshalEntry)),
    ("hosts", JsonVal.arr (d.hosts.map marshalEntry)),
    ("jumps", JsonVal.arr (d.jumps.map marshalEntry))]

/-- The empty `StoredData`; `loadStoredData` pre-initialises its target
with four empty lists (`main.go` lines 301-306). -/
def emptyStoredData : StoredData := ⟨[], [], [], []⟩

/-- One key/value pair of an entry object, processed as `json.Unmarshal`
processes it: a recognised key assigns the matching field when the value
has the right shape, saves a decode error and leaves the field untouched
otherwise; unknown keys are ignored.  The Bool records whether an error has
been saved so far (Go keeps only the first error; the model keeps the
flag). -/
def unmarshalEntryStep (acc : StoredEntry × Bool) (kv : String × JsonVal) :
    StoredEntry × Bool :=
  match kv with
  | (k, v) =>
    if k == "value" then
      match v with
      | JsonVal.str s => ({ acc.1 with value := s }, acc.2)
      | _ => (acc.1, true)
    else if k == "last_used" then
      match v with
      | JsonVal.num n => ({ acc.1 with lastUsed := n }, acc.2)
      | _ => (acc.1, true)
    else if k == "created_at" then
      match v with
      | JsonVal.num n => ({ acc.1 with createdAt := n }, acc.2)
      | _ => (acc.1, true)
    else acc

/-- Best-effort `json.Unmarshal` of one `StoredEntry`: iterate the object's
keys in order starting from the zero value, so fields missing from the
document stay zero-valued with no error; a non-object element saves a type
error and yields the zero entry. -/
def unmarshalEntry (j : JsonVal) : StoredEntry × Bool :=
  match j with
  | JsonVal.obj fields => fields.foldl unmarshalEntryStep (⟨"", 0, 0⟩, false)
  | _ => (⟨"", 0, 0⟩, true)

/-- Best-effort `json.Unmarshal` of one category array: the slice is reset
and every element appended with its decoded (possibly zero) value; element
errors are saved and decoding continues. -/
def unmarshalEntryList (items : List JsonVal) : List StoredEntry × Bool :=
  match items with
  | [] => ([], false)
  | j :: rest =>
    ((unmarshalEntry j).1 :: (unmarshalEntryList rest).1,
      (unmarshalEntry j).2 || (unmarshalEntryList rest).2)

/-- One key/value pair of the top-level object: a category key whose value
is an array replaces that category's list with the decoded entries; a
non-array value saves a type error and leaves the list untouched; unknown
keys are ignored. -/
def unmarshalDataStep (acc : StoredData × Bool) (kv : String × JsonVal) :
    StoredData × Bool :=
  match kv with
  | (k, v) =>
    if k == "keys" then
      match v with
      | JsonVal.arr items => ({ acc.1 with keys := (unmarshalEntryList items).1 },
          acc.2 || (unmarshalEntryList items).2)
      | _ => (acc.1, true)
    else if k == "accounts" then
      match v with
      | JsonVal.arr items => ({ acc.1 with accounts := (unmarshalEntryList items).1 },
          acc.2 || (unmarshalEntryList items).2)
      | _ => (acc.1, true)
    else if k == "hosts" then
      match v with
      | JsonVal.arr items => ({ acc.1 with hosts := (unmarshalEntryList items).1 },
          acc.2 || (unmarshalEntryList items).2)
      | _ => (acc.1, true)
    else if k == "jumps" then
      match v with
      | JsonVal.arr items => ({ acc.1 with jumps := (unmarshalEntryList items).1 },
          acc.2 || (unmarshalEntryList items).2)
      | _ => (acc.1, true)
    else acc

/-- Best-effort `json.Unmarshal` into the pre-initialised `StoredData`
(`loadStoredData` lines 322-324): a non-object document saves a type error
and leaves the data untouched; an object is decoded key by key, skipping
mismatched values while recording that an error occurred, exactly the
documented behaviour of `encoding/json` (decode what can be decoded, return
the first error alongside the partially-filled value). -/
def unmarshalStoredData (j : JsonVal) : StoredData × Bool :=
  match j with
  | JsonVal.obj fields => fields.foldl unmarshalDataStep (emptyStoredData, false)
  | _ => (emptyStoredData, true)

/-- The two failure classes `loadStoredData` can report: the file could not
be read, or its contents could not be parsed. -/
inductive LoadErr where
  | readFailed
  | parseFailed
deriving DecidableEq

/-- State of the history file on disk: absent, unreadable, readable but not
parseable JSON, or a readable well-formed JSON document. -/
inductive HistFile where
  | absent
  | unreadable
  | invalid
  | valid : JsonVal → HistFile

/-- `loadStoredData` (`main.go` lines 300-327): an absent file yields the
empty data and no error; a read failure yields the empty data with an
error; a syntactically invalid file yields the empty data with a parse
error (`json.Unmarshal` validates the whole input before touching its
target); a well-formed JSON document is decoded best-effort, returning the
(possibly partially filled) data together with a parse error exactly when
the decoder saved one. -/
def loadStoredData (f : HistFile) : StoredData × Option LoadErr :=
  match f with
  | HistFile.absent => (emptyStoredData, none)
  | HistFile.unreadable => (emptyStoredData, some LoadErr.readFailed)
  | HistFile.invalid => (emptyStoredData, some LoadErr.parseFailed)
  | HistFile.valid j =>
    ((unmarshalStoredData j).1,
      if (unmarshalStoredData j).2 then some LoadErr.parseFailed else none)

/-- `saveStoredData` (`main.go` lines 329-345): the JSON document written to
the history file. -/
def saveStoredData (d : StoredData) : JsonVal := marshalStoredData d

/-- `createStoredEntry` (`main.go` lines 355-362). -/
def createStoredEntry (value : String) (now : Nat) : StoredEntry :=
  ⟨value, now, now⟩

/-- `addOrUpdateEntry` (`main.go` lines 364-377): refresh `lastUsed` of the
first entry whose value matches, else append a fresh entry with
`createdAt = lastUsed = now`. -/
def addOrUpdateEntry (entries : List StoredEntry) (value : String) (now : Nat) :
    List StoredEntry :=
  match entries with
  | [] => [⟨value, now, now⟩]
  | e :: rest =>
    if e.value = value then ⟨e.value, now, e.createdAt⟩ :: rest
    else e :: addOrUpdateEntry rest value now

/-- The `"Host "` directive keyword. -/
def hostKw : String := "Host "

/-- The `"User "` directive keyword. -/
def userKw : String := "User "

/-- The `"ProxyJump "` directive keyword. -/
def jumpKw : String := "ProxyJump "

/-- One iteration of the scanner loop of `loadSSHConfig`
(`main.go` lines 403-419). -/
def processConfigLine (now : Nat) (cfg : SSHConfig) (rawLine : String) : SSHConfig :=
  let line := goTrimSpace rawLine
  if goStartsWith line hostKw then
    let host := goTrimPre line hostKw
    if !goContainsChar host '*' then
      { cfg with hosts := cfg.hosts ++ (goFields host).map (fun h => createStoredEntry h now) }
    else cfg
  else if goStartsWith line userKw then
    { cfg with accounts := cfg.accounts ++ [createStoredEntry (goTrimPre line userKw) now] }
  else if goStartsWith line jumpKw then
    { cfg with jumps := cfg.jumps ++ [createStoredEntry (goTrimPre line jumpKw) now] }
  else cfg

/-- Outcome of the external `fzf` subprocess, the data `runFzf` inspects:
the captured standard output together with the exit condition
(`success` = exit 0, `exitFail code` = `*exec.ExitError` with that code,
`startFailed` = the process could not be launched or piped at all). -/
inductive CmdResult where
  | success : String → CmdResult
  | exitFail : Nat → String → CmdResult
  | startFailed : CmdResult

/-- External inputs of one program run: whether `user.Current()` succeeded
and with which name, the lines of `~/.ssh/config` (`none` when the file is
absent), the history file, the four picker outcomes, the confirmation input
line, and the two `time.Now()` readings (candidate creation / selection
updates). -/
structure Env where
  userOk : Bool
  username : String
  sshConfigLines : Option (List String)
  histFile : HistFile
  fzfKey : CmdResult
  fzfAccount : CmdResult
  fzfHost : CmdResult
  fzfJump : CmdResult
  confirmLine : String
  tCfg : Nat
  tSel : Nat

/-- `loadSSHConfig` (`main.go` lines 379-432): seed keys with the current
user when the lookup succeeded, scan the SSH config lines, then merge the
stored history only when it loaded without error. -/
def loadSSHConfig (env : Env) : SSHConfig :=
  let base : SSHConfig := ⟨[], [], [], []⟩
  let withKey :=
    if env.userOk then
      { base with keys := base.keys ++ [createStoredEntry env.username env.tCfg] }
    else base
  let withCfg :=
    match env.sshConfigLines with
    | none => withKey
    | some lines => lines.foldl (processConfigLine env.tCfg) withKey
  let loaded := loadStoredData env.histFile
  if loaded.2.isNone then
    { withCfg with
      keys := withCfg.keys ++ loaded.1.keys,
      accounts := withCfg.accounts ++ loaded.1.accounts,
      hosts := withCfg.hosts ++ loaded.1.hosts,
      jumps := withCfg.jumps ++ loaded.1.jumps }
  else withCfg

/-- `runFzf` (`main.go` lines 434-479): on exit code 1 return the captured
query line when it is non-empty, otherwise surface the error (`none`); on
success return the selection line, falling back to the query line. -/
def runFzf (res : CmdResult) : Option String :=
  match res with
  | CmdResult.startFailed => none
  | CmdResult.exitFail code output =>
    if code = 1 then
      let lines := goSplitNl output
      if 0 < lines.length ∧ lines.headD emptyStr ≠ emptyStr then
        some (lines.headD emptyStr)
      else none
    else none
  | CmdResult.success output =>
    let lines := goSplitNl output
    if 2 ≤ lines.length then
      let selection := goTrimSpace (lines.getD 1 emptyStr)
      if selection ≠ emptyStr then some selection
      else some (goTrimSpace (lines.headD emptyStr))
    else some (goTrimSpace output)

/-- The token captured into `response` by `fmt.Scanln(&response)` from one
input line: the first whitespace-delimited token, or the empty string when
the line holds none (`Scanln` skips surrounding spaces and leaves the
variable untouched on an empty line). -/
def scanlnCapture (line : String) : String := (goFields line).headD emptyStr

/-- `promptConfirmation` (`main.go` lines 481-486) as a function of the
input line typed at the prompt. -/
def promptConfirmation (line : String) : Bool :=
  goToLower (scanlnCapture line) == "y"

/-- The connection-string composition of `main` (`main.go` lines 552-555). -/
def buildSSHCmd (key account host jump : String) : String :=
  let sshCmd := key ++ "@" ++ account ++ "@" ++ host
  if jump ≠ emptyStr then sshCmd ++ "@" ++ jump else sshCmd

/-- The key-history update of `main` (`main.go` lines 518-520): store the
selection only when it differs from the first key candidate. -/
def keyHistUpdate (firstKeyValue : String) (histKeys : List StoredEntry)
    (key : String) (now : Nat) : List StoredEntry :=
  if key ≠ firstKeyValue then addOrUpdateEntry histKeys key now else histKeys

/-- The jump-history update of `main` (`main.go` lines 544-546): store the
selection only when it is non-empty. -/
def jumpHistUpdate (histJumps : List StoredEntry) (jump : String) (now : Nat) :
    List StoredEntry :=
  if jump ≠ emptyStr then addOrUpdateEntry histJumps jump now else histJumps

/-- Result of one run of `main`: abort with exit 1 at a selection error,
a Go runtime panic (index out of range on `config.Keys[0]`), or completion
carrying the `StoredData` handed to `saveStoredData`, the composed command,
and the confirmation answer. -/
inductive MainOutcome where
  | errored
  | panicked
  | done : StoredData → String → Bool → MainOutcome
deriving DecidableEq

/-- `main` (`main.go` lines 496-566), from the candidate lists to the saved
history and composed command.  The four history updates are written here
after the four selections; the Go code interleaves them, but the updates of
distinct categories do not interact and nothing is saved on an aborted run,
so the completed-run outcome is identical. -/
def mainRun (env : Env) : MainOutcome :=
  let config := loadSSHConfig env
  let storedData := (loadStoredData env.histFile).1
  match runFzf env.fzfKey with
  | none => MainOutcome.errored
  | some key =>
    match config.keys with
    | [] => MainOutcome.panicked
    | k0 :: _ =>
      match runFzf env.fzfAccount with
      | none => MainOutcome.errored
      | some account =>
        match runFzf env.fzfHost with
        | none => MainOutcome.errored
        | some host =>
          match runFzf env.fzfJump with
          | none => MainOutcome.errored
          | some jump =>
            let finalData : StoredData :=
              ⟨keyHistUpdate k0.value storedData.keys key env.tSel,
               addOrUpdateEntry storedData.accounts account env.tSel,
               addOrUpdateEntry storedData.hosts host env.tSel,
               jumpHistUpdate storedData.jumps jump env.tSel⟩
            MainOutcome.done finalData (buildSSHCmd key account host jump)
              (promptConfirmation env.confirmLine)

/-- Run whose SSH config holds the four example lines of the spec. -/
def envC1ex : Env := {
  userOk := false
  username := ""
  sshConfigLines := some ["Host foo bar", "Host *wild*", "User svc1", "ProxyJump jmp1"]
  histFile := HistFile.absent
  fzfKey := CmdResult.startFailed
  fzfAccount := CmdResult.startFailed
  fzfHost := CmdResult.startFailed
  fzfJump := CmdResult.startFailed
  confirmLine := ""
  tCfg := 0
  tSel := 0 }

/-- Run whose SSH config holds one host line mixing a plain name and a
wildcard token. -/
def envC1cx : Env := {
  userOk := false
  username := ""
  sshConfigLines := some ["Host foo *wild*"]
  histFile := HistFile.absent
  fzfKey := CmdResult.startFailed
  fzfAccount := CmdResult.startFailed
  fzfHost := CmdResult.startFailed
  fzfJump := CmdResult.startFailed
  confirmLine := ""
  tCfg := 0
  tSel := 0 }

/-- Run where the OS user lookup succeeds and the user picks exactly the
synthetic current-user key (the picker exits 1 with the typed query). -/
def envC2w : Env := {
  userOk := true
  username := "alice"
  sshConfigLines := none
  histFile := HistFile.absent
  fzfKey := CmdResult.exitFail 1 ("alice")
  fzfAccount := CmdResult.exitFail 1 ("svc")
  fzfHost := CmdResult.exitFail 1 ("h1")
  fzfJump := CmdResult.success ("")
  confirmLine := ""
  tCfg := 0
  tSel := 0 }

/-- Run with an unreadable history file. -/
def envC8w : Env := {
  userOk := true
  username := "alice"
  sshConfigLines := none
  histFile := HistFile.unreadable
  fzfKey := CmdResult.exitFail 1 ("alice")
  fzfAccount := CmdResult.exitFail 1 ("svc")
  fzfHost := CmdResult.exitFail 1 ("h1")
  fzfJump := CmdResult.success ("")
  confirmLine := ""
  tCfg := 0
  tSel := 0 }

/-- Run whose jump-host selection resolves to the empty string. -/
def envC9w : Env := {
  userOk := true
  username := "alice"
  sshConfigLines := none
  histFile := HistFile.absent
  fzfKey := CmdResult.exitFail 1 ("alice")
  fzfAccount := CmdResult.exitFail 1 ("svc")
  fzfHost := CmdResult.exitFail 1 ("h1")
  fzfJump := CmdResult.success ("")
  confirmLine := ""
  tCfg := 0
  tSel := 0 }

/-- Run where the OS user lookup fails, the history is absent, and the user
types a key into the picker: `config.Keys` is empty and `main` indexes it. -/
def envC10cx : Env := {
  userOk := false
  username := ""
  sshConfigLines := none
  histFile := HistFile.absent
  fzfKey := CmdResult.exitFail 1 ("typed")
  fzfAccount := CmdResult.exitFail 1 ("svc")
  fzfHost := CmdResult.exitFail 1 ("h1")
  fzfJump := CmdResult.success ("")
  confirmLine := ""
  tCfg := 0
  tSel := 0 }

/-- Run where the OS user lookup succeeds (the guarded safe case). -/
def envC10w : Env := {
  userOk := true
  username := "bob"
  sshConfigLines := none
  histFile := HistFile.absent
  fzfKey := CmdResult.exitFail 1 ("typed")
  fzfAccount := CmdResult.exitFail 1 ("svc")
  fzfHost := CmdResult.exitFail 1 ("h1")
  fzfJump := CmdResult.success ("")
  confirmLine := ""
  tCfg := 0
  tSel := 0 }

/-! ## Auxiliary lemmas about the string model -/

theorem toList_mk (l : List Char) : (String.mk l).toList = l := rfl

theorem toList_inj {s t : String} (h : s.toList = t.toList) : s = t :=
  congrArg String.mk h

theorem toNat_ofNat_valid {n : Nat} (h : n.isValidChar) : (Char.ofNat n).toNat = n := by
  rw [Char.ofNat, dif_pos h]
  rfl

theorem toLower_eq_y {c : Char} (h : Char.toLower c = 'y') : c = 'y' ∨ c = 'Y' := by
  have h' : (if 65 ≤ c.toNat ∧ c.toNat ≤ 90 then Char.ofNat (c.toNat + 32) else c) = 'y' := h
  clear h
  split_ifs at h' with hr
  · right
    have hv : (c.toNat + 32).isValidChar := Or.inl (by omega)
    have h2 : (Char.ofNat (c.toNat + 32)).toNat = ('y' : Char).toNat := by rw [h']
    rw [toNat_ofNat_valid hv] at h2
    have h3 : c.toNat = 89 := by simp at h2; omega
    have h4 : Char.ofNat c.toNat = Char.ofNat 89 := by rw [h3]
    rw [Char.ofNat_toNat] at h4
    exact h4.trans (by decide)
  · exact Or.inl h'

theorem goToLower_eq_y (s : String) : goToLower s = "y" ↔ (s = "y" ∨ s = "Y") := by
  constructor
  · intro h
    have h2 : s.toList.map Char.toLower = ['y'] := by
      have h3 := congrArg String.toList h
      simpa [goToLower, toList_mk] using h3
    rcases hl : s.toList with _ | ⟨c, rest⟩
    · rw [hl] at h2; simp at h2
    · rw [hl] at h2
      rcases rest with _ | ⟨c2, r2⟩
      · simp only [List.map_cons, List.map_nil, List.cons.injEq, and_true] at h2
        rcases toLower_eq_y h2 with rfl | rfl
        · exact Or.inl (toList_inj hl)
        · exact Or.inr (toList_inj hl)
      · simp at h2
  · rintro (rfl | rfl) <;> rfl

theorem splitStep_ne_nil (p : Char → Bool) (c : Char) (acc : List (List Char)) :
    (if p c then [] :: acc
     else
       match acc with
       | [] => [[c]]
       | g :: gs => (c :: g) :: gs) ≠ [] := by
  cases p c <;> cases acc <;> simp

theorem splitByChars_ne_nil (p : Char → Bool) (cs : List Char) : splitByChars p cs ≠ [] := by
  cases cs with
  | nil => simp [splitByChars]
  | cons c cs =>
    simp only [splitByChars, List.foldr_cons]
    exact splitStep_ne_nil p c _

theorem goSplitNl_ne_nil (s : String) : goSplitNl s ≠ [] := by
  simp only [goSplitNl, ne_eq, List.map_eq_nil_iff]
  exact splitByChars_ne_nil _ _

/-! ## Claims C5, C6, C7 -/

/-- Claim C5, counterexample: the Go code accepts the input line consisting
of an upper-case affirmative letter followed by a space (the claim lists it
as a decline), and it accepts a line whose trimmed, lower-cased form is not
the single affirmative letter, refuting the claimed characterisation. -/
theorem C5_counterexample :
    promptConfirmation ("Y ") = true ∧
    promptConfirmation ("y z") = true ∧ goToLower (goTrimSpace ("y z")) ≠ "y" := by
  refine ⟨by decide, by decide, by decide⟩

/-- Claim C5 (amended): confirmation returns true iff the whitespace-
delimited response token captured from the input line is exactly "y" or
"Y"; in particular "yes" and the empty line decline, while "Y " (trailing
space) is accepted because the tokenising read strips surrounding
whitespace.  There is no retry. -/
theorem C5_thm :
    (∀ line : String, promptConfirmation line = true ↔
      (scanlnCapture line = "y" ∨ scanlnCapture line = "Y")) ∧
    promptConfirmation ("yes") = false ∧
    promptConfirmation ("") = false ∧
    promptConfirmation ("Y ") = true ∧
    promptConfirmation ("y") = true ∧
    promptConfirmation ("Y") = true := by
  refine ⟨?_, by decide, by decide, by decide, by decide, by decide⟩
  intro line
  rw [promptConfirmation, beq_iff_eq]
  exact goToLower_eq_y (scanlnCapture line)

/-- Claim C6: the composed connection string is key\x40account\x40host,
with \x40jump appended exactly when the jump selection is non-empty; every
component is passed through verbatim. -/
theorem C6_thm (key account host jump : String) :
    (jump = emptyStr →
      buildSSHCmd key account host jump = key ++ "@" ++ account ++ "@" ++ host) ∧
    (jump ≠ emptyStr →
      buildSSHCmd key account host jump =
        key ++ "@" ++ account ++ "@" ++ host ++ "@" ++ jump) := by
  constructor
  · intro h
    simp [buildSSHCmd, h]
  · intro h
    simp [buildSSHCmd, h]

/-- Witness for C6 at the spec's example inputs. -/
theorem C6_witness :
    buildSSHCmd ("alice") ("svc1") ("foo") ("") =
      "alice" ++ "@" ++ "svc1" ++ "@" ++ "foo" :=
  (C6_thm ("alice") ("svc1") ("foo") ("")).1 rfl

/-- Claim C7: when the picker exits with code 1 ("no match / cancelled")
and a non-empty query line was captured, that query is returned as the
chosen value; with no usable query the exit surfaces as an error, as do all
other abnormal exits and a failure to launch the picker. -/
theorem C7_thm (code : Nat) (output : String) :
    (code = 1 → (goSplitNl output).headD emptyStr ≠ emptyStr →
      runFzf (CmdResult.exitFail code output) =
        some ((goSplitNl output).headD emptyStr)) ∧
    (code = 1 → (goSplitNl output).headD emptyStr = emptyStr →
      runFzf (CmdResult.exitFail code output) = none) ∧
    (code ≠ 1 → runFzf (CmdResult.exitFail code output) = none) ∧
    runFzf CmdResult.startFailed = none := by
  refine ⟨?_, ?_, ?_, rfl⟩
  · intro hc hq
    subst hc
    rw [runFzf, if_pos rfl, if_pos]
    exact ⟨List.length_pos.2 (goSplitNl_ne_nil output), hq⟩
  · intro hc hq
    subst hc
    rw [runFzf, if_pos rfl, if_neg]
    exact fun hcon => hcon.2 hq
  · intro hc
    rw [runFzf, if_neg hc]

/-- Witness for C7: exit code 1 with the captured typed query returns the
query. -/
theorem C7_witness :
    runFzf (CmdResult.exitFail 1 ("typed")) =
      some ((goSplitNl ("typed")).headD emptyStr) :=
  (C7_thm 1 ("typed")).1 rfl (by decide)

/-! ## Claim C3: addOrUpdateEntry -/
theorem addOrUpdate_of_not_mem (entries : List StoredEntry) (v : String) (n : Nat)
    (h : v ∉ entries.map StoredEntry.value) :
    addOrUpdateEntry entries v n = entries ++ [⟨v, n, n⟩] := by
  induction entries with
  | nil => rfl
  | cons e rest ih =>
    have h1 : ¬ e.value = v := by
      intro he
      exact h (by simp [he])
    have h2 : v ∉ rest.map StoredEntry.value := by
      intro hm
      exact h (by simp [hm])
    simp [addOrUpdateEntry, h1, ih h2]

theorem addOrUpdate_map_value (entries : List StoredEntry) (v : String) (n : Nat) :
    (addOrUpdateEntry entries v n).map StoredEntry.value =
      if v ∈ entries.map StoredEntry.value then entries.map StoredEntry.value
      else entries.map StoredEntry.value ++ [v] := by
  induction entries with
  | nil => simp [addOrUpdateEntry]
  | cons e rest ih =>
    by_cases he : e.value = v
    · simp [addOrUpdateEntry, he]
    · have hne : ¬ v = e.value := fun hv => he hv.symm
      simp only [addOrUpdateEntry, if_neg he, List.map_cons, ih, List.mem_cons]
      by_cases hm : v ∈ rest.map StoredEntry.value
      · rw [if_pos hm, if_pos (Or.inr hm)]
      · rw [if_neg hm, if_neg]
        · simp
        · rintro (h1 | h2)
          · exact hne h1
          · exact hm h2

theorem addOrUpdate_nodup (entries : List StoredEntry) (v : String) (n : Nat)
    (h : (entries.map StoredEntry.value).Nodup) :
    ((addOrUpdateEntry entries v n).map StoredEntry.value).Nodup := by
  rw [addOrUpdate_map_value]
  by_cases hm : v ∈ entries.map StoredEntry.value
  · rwa [if_pos hm]
  · rw [if_neg hm]
    simp [List.nodup_append, h, hm]

theorem map_refresh_id (entries : List StoredEntry) (v : String) (n : Nat)
    (h : v ∉ entries.map StoredEntry.value) :
    entries.map
        (fun e => if e.value = v then (⟨e.value, n, e.createdAt⟩ : StoredEntry) else e) =
      entries := by
  induction entries with
  | nil => rfl
  | cons e rest ih =>
    have h1 : ¬ e.value = v := by
      intro he
      exact h (by simp [he])
    have h2 : v ∉ rest.map StoredEntry.value := by
      intro hm
      exact h (by simp [hm])
    simp [h1, ih h2]

theorem addOrUpdate_of_mem (entries : List StoredEntry) (v : String) (n : Nat)
    (hnd : (entries.map StoredEntry.value).Nodup) (hm : v ∈ entries.map StoredEntry.value) :
    addOrUpdateEntry entries v n =
      entries.map
        (fun e => if e.value = v then (⟨e.value, n, e.createdAt⟩ : StoredEntry) else e) := by
  induction entries with
  | nil => simp at hm
  | cons e rest ih =>
    simp only [List.map_cons, List.nodup_cons] at hnd
    by_cases he : e.value = v
    · have hrest : v ∉ rest.map StoredEntry.value := by
        rw [← he]
        exact hnd.1
      simp [addOrUpdateEntry, he, map_refresh_id rest v n hrest]
    · have hm2 : v ∈ rest.map StoredEntry.value := by
        rw [List.map_cons] at hm
        rcases List.mem_cons.1 hm with h1 | h2
        · exact absurd h1.symm he
        · exact h2
      simp [addOrUpdateEntry, he, ih hnd.2 hm2]

theorem addOrUpdate_idem (entries : List StoredEntry) (v : String) (n : Nat) :
    addOrUpdateEntry (addOrUpdateEntry entries v n) v n = addOrUpdateEntry entries v n := by
  induction entries with
  | nil => simp [addOrUpdateEntry]
  | cons e rest ih =>
    by_cases he : e.value = v
    · simp [addOrUpdateEntry, he]
    · simp [addOrUpdateEntry, he, ih]

/-- Claim C3: starting from a list with unique values, addOrUpdateEntry
preserves uniqueness; when the value is present it only refreshes that
entry's lastUsed (keeping its createdAt and the list length, idempotent on
repetition); when absent it appends exactly one entry with
createdAt = lastUsed = now. -/
theorem C3_thm (entries : List StoredEntry) (v : String) (n : Nat)
    (hnd : (entries.map StoredEntry.value).Nodup) :
    ((addOrUpdateEntry entries v n).map StoredEntry.value).Nodup ∧
    (v ∈ entries.map StoredEntry.value →
      addOrUpdateEntry entries v n =
        entries.map
          (fun e => if e.value = v then (⟨e.value, n, e.createdAt⟩ : StoredEntry) else e) ∧
      (addOrUpdateEntry entries v n).length = entries.length) ∧
    (v ∉ entries.map StoredEntry.value →
      addOrUpdateEntry entries v n = entries ++ [⟨v, n, n⟩]) ∧
    addOrUpdateEntry (addOrUpdateEntry entries v n) v n = addOrUpdateEntry entries v n := by
  refine ⟨addOrUpdate_nodup entries v n hnd, ?_, addOrUpdate_of_not_mem entries v n,
    addOrUpdate_idem entries v n⟩
  intro hm
  refine ⟨addOrUpdate_of_mem entries v n hnd hm, ?_⟩
  rw [addOrUpdate_of_mem entries v n hnd hm, List.length_map]

/-- Witness for C3 at a concrete one-entry history. -/
theorem C3_witness :
    addOrUpdateEntry [⟨"a", 0, 0⟩] ("b") 5 = [⟨"a", 0, 0⟩] ++ [⟨"b", 5, 5⟩] :=
  (C3_thm [⟨"a", 0, 0⟩] ("b") 5 (by decide)).2.2.1 (by decide)

/-! ## Claim C4: save/load round trip -/

theorem unmarshalEntry_marshal (e : StoredEntry) :
    unmarshalEntry (marshalEntry e) = (e, false) := rfl

theorem unmarshalEntryList_marshal (l : List StoredEntry) :
    unmarshalEntryList (l.map marshalEntry) = (l, false) := by
  induction l with
  | nil => rfl
  | cons e rest ih => simp [unmarshalEntryList, unmarshalEntry_marshal, ih]

theorem unmarshal_marshal (d : StoredData) :
    unmarshalStoredData (marshalStoredData d) = (d, false) := by
  cases d with
  | mk ks acs hs js =>
    simp [marshalStoredData, unmarshalStoredData, unmarshalDataStep,
      unmarshalEntryList_marshal, emptyStoredData]

/-- Claim C4: saving a `StoredData` and loading it back reproduces the same
entries in every category (stated, as in the claim, as an order-insensitive
comparison of the value/createdAt pairs), with no load error. -/
theorem C4_thm (d : StoredData) :
    ((loadStoredData (HistFile.valid (saveStoredData d))).1.keys.map entryVC).Perm
      (d.keys.map entryVC) ∧
    ((loadStoredData (HistFile.valid (saveStoredData d))).1.accounts.map entryVC).Perm
      (d.accounts.map entryVC) ∧
    ((loadStoredData (HistFile.valid (saveStoredData d))).1.hosts.map entryVC).Perm
      (d.hosts.map entryVC) ∧
    ((loadStoredData (HistFile.valid (saveStoredData d))).1.jumps.map entryVC).Perm
      (d.jumps.map entryVC) ∧
    (loadStoredData (HistFile.valid (saveStoredData d))).2 = none := by
  have h : loadStoredData (HistFile.valid (saveStoredData d)) = (d, none) := by
    simp [loadStoredData, saveStoredData, unmarshal_marshal]
  rw [h]
  exact ⟨List.Perm.refl _, List.Perm.refl _, List.Perm.refl _, List.Perm.refl _, rfl⟩

/-! ## Claim C1: host-directive parsing -/

/-- Claim C1, counterexample: on the line consisting of the host keyword,
a plain name and a wildcard token, per-token exclusion would keep "foo",
but the code contributes nothing from the entire line. -/
theorem C1_counterexample :
    (loadSSHConfig envC1cx).hosts.map StoredEntry.value = [] ∧
    "foo" ∉ (loadSSHConfig envC1cx).hosts.map StoredEntry.value := by
  refine ⟨by decide, by decide⟩

/-- Claim C1 (amended): a Host line contributes its space-separated names
only when the whole remainder of the line contains no wildcard character;
a wildcard anywhere on the line suppresses every token of that line
(per-line, not per-token, exclusion).  On the spec's example config the
hosts are exactly foo and bar, the accounts contain svc1 and the jumps
contain jmp1. -/
theorem C1_thm (now : Nat) (cfg : SSHConfig) (rawLine : String)
    (h : goStartsWith (goTrimSpace rawLine) hostKw = true) :
    (processConfigLine now cfg rawLine).hosts =
      cfg.hosts ++
        (if goContainsChar (goTrimPre (goTrimSpace rawLine) hostKw) '*' then []
         else (goFields (goTrimPre (goTrimSpace rawLine) hostKw)).map
           (fun x => createStoredEntry x now)) ∧
    (loadSSHConfig envC1ex).hosts.map StoredEntry.value = ["foo", "bar"] ∧
    "svc1" ∈ (loadSSHConfig envC1ex).accounts.map StoredEntry.value ∧
    "jmp1" ∈ (loadSSHConfig envC1ex).jumps.map StoredEntry.value := by
  refine ⟨?_, by decide, by decide, by decide⟩
  simp only [processConfigLine, h, if_true]
  cases hc : goContainsChar (goTrimPre (goTrimSpace rawLine) hostKw) '*' <;>
    simp [hc]

/-- Witness for C1 on a wildcard-free host line. -/
theorem C1_witness :
    (processConfigLine 0 ⟨[], [], [], []⟩ ("Host a b")).hosts =
      ([] : List StoredEntry) ++
        (if goContainsChar (goTrimPre (goTrimSpace ("Host a b")) hostKw) '*' then []
         else (goFields (goTrimPre (goTrimSpace ("Host a b")) hostKw)).map
           (fun x => createStoredEntry x 0)) :=
  (C1_thm 0 ⟨[], [], [], []⟩ ("Host a b") (by decide)).1

/-! ## Claims C2, C8, C9, C10: the candidate lists and one full run -/

theorem processConfigLine_keys (now : Nat) (cfg : SSHConfig) (line : String) :
    (processConfigLine now cfg line).keys = cfg.keys := by
  simp only [processConfigLine]
  split_ifs <;> rfl

theorem foldl_config_keys (now : Nat) (lines : List String) (cfg : SSHConfig) :
    (lines.foldl (processConfigLine now) cfg).keys = cfg.keys := by
  induction lines generalizing cfg with
  | nil => rfl
  | cons l ls ih => rw [List.foldl_cons, ih, processConfigLine_keys]

theorem loadSSHConfig_keys (env : Env) :
    (loadSSHConfig env).keys =
      (if env.userOk then [createStoredEntry env.username env.tCfg] else []) ++
        (if (loadStoredData env.histFile).2.isNone then
          (loadStoredData env.histFile).1.keys
         else []) := by
  simp only [loadSSHConfig]
  cases hn : (loadStoredData env.histFile).2.isNone <;>
    cases hcl : env.sshConfigLines <;>
      cases hu : env.userOk <;>
        simp [hn, foldl_config_keys]

/-- Claim C2: whenever the OS user lookup succeeds, the synthetic
current-user key entry is in the key candidate list regardless of the
loaded history, and when the final key selection equals that synthetic
value the run's saved key history is exactly the loaded key history (the
synthetic entry is never written back). -/
theorem C2_thm (env : Env) (h1 : env.userOk = true)
    (h2 : runFzf env.fzfKey = some env.username) :
    createStoredEntry env.username env.tCfg ∈ (loadSSHConfig env).keys ∧
    (∀ d cmd ok, mainRun env = MainOutcome.done d cmd ok →
      d.keys = (loadStoredData env.histFile).1.keys) := by
  have hkeys : (loadSSHConfig env).keys =
      createStoredEntry env.username env.tCfg ::
        (if (loadStoredData env.histFile).2.isNone then
          (loadStoredData env.histFile).1.keys
         else []) := by
    rw [loadSSHConfig_keys, h1]
    simp
  constructor
  · rw [hkeys]
    exact List.mem_cons_self _ _
  · intro d cmd ok h
    simp only [mainRun, h2, hkeys] at h
    rcases ha : runFzf env.fzfAccount with _ | account <;> rw [ha] at h
    · simp at h
    rcases hh : runFzf env.fzfHost with _ | host <;> rw [hh] at h
    · simp at h
    rcases hj : runFzf env.fzfJump with _ | jump <;> rw [hj] at h
    · simp at h
    simp only [MainOutcome.done.injEq] at h
    rw [← h.1]
    simp [keyHistUpdate, createStoredEntry]

/-- Claim C9: on a run whose jump selection resolves to the empty string,
the saved jump history equals the loaded jump history; in particular no
entry with an empty value is ever added. -/
theorem C9_thm (env : Env) (hj : runFzf env.fzfJump = some emptyStr) :
    ∀ d cmd ok, mainRun env = MainOutcome.done d cmd ok →
      d.jumps = (loadStoredData env.histFile).1.jumps ∧
      (emptyStr ∉ (loadStoredData env.histFile).1.jumps.map StoredEntry.value →
        emptyStr ∉ d.jumps.map StoredEntry.value) := by
  intro d cmd ok h
  simp only [mainRun, hj] at h
  rcases hk : runFzf env.fzfKey with _ | key <;> rw [hk] at h
  · simp at h
  rcases hck : (loadSSHConfig env).keys with _ | ⟨k0, krest⟩ <;> rw [hck] at h
  · simp at h
  rcases ha : runFzf env.fzfAccount with _ | account <;> rw [ha] at h
  · simp at h
  rcases hh : runFzf env.fzfHost with _ | host <;> rw [hh] at h
  · simp at h
  simp only [MainOutcome.done.injEq] at h
  rw [← h.1]
  constructor
  · simp [jumpHistUpdate]
  · intro hmem
    simpa [jumpHistUpdate] using hmem

/-- Claim C10, counterexample: when the OS user lookup fails and the
history holds no keys, the key candidate list is empty and `main`'s access
to its first element is out of bounds (a Go panic). -/
theorem C10_counterexample :
    (loadSSHConfig envC10cx).keys = [] ∧ mainRun envC10cx = MainOutcome.panicked := by
  refine ⟨by decide, by decide⟩

/-- Claim C10 (amended): the first-key index is in bounds whenever the OS
user lookup succeeded or the history loaded without error with at least one
key; under that hypothesis a run never reaches the out-of-bounds access. -/
theorem C10_thm (env : Env)
    (h : env.userOk = true ∨ ((loadStoredData env.histFile).2 = none ∧
      (loadStoredData env.histFile).1.keys ≠ [])) :
    mainRun env ≠ MainOutcome.panicked := by
  have hne : (loadSSHConfig env).keys ≠ [] := by
    rw [loadSSHConfig_keys]
    rcases h with h | ⟨ha, hb⟩
    · simp [h]
    · simp [ha, hb]
  simp only [mainRun]
  rcases hk : runFzf env.fzfKey with _ | key
  · simp
  rcases hck : (loadSSHConfig env).keys with _ | ⟨k0, krest⟩
  · exact absurd hck hne
  rcases ha : runFzf env.fzfAccount with _ | account
  · simp
  rcases hh : runFzf env.fzfHost with _ | host
  · simp
  rcases hj : runFzf env.fzfJump with _ | jump <;> simp

/-- Witness for C10 with a successful user lookup. -/
theorem C10_witness : mainRun envC10w ≠ MainOutcome.panicked :=
  C10_thm envC10w (Or.inl rfl)

theorem config_append_nil (c : SSHConfig) :
    ({ keys := c.keys ++ [], accounts := c.accounts ++ [],
       hosts := c.hosts ++ [], jumps := c.jumps ++ [] } : SSHConfig) = c := by
  cases c
  simp

theorem loadSSHConfig_unreadable (env : Env) (h : env.histFile = HistFile.unreadable) :
    loadSSHConfig { env with histFile := HistFile.absent } = loadSSHConfig env := by
  cases env with
  | mk uo un cl hf k a ho j cf t1 t2 =>
    simp only at h
    subst h
    simp only [loadSSHConfig, loadStoredData]
    simp [emptyStoredData]

theorem mainRun_unreadable (env : Env) (h : env.histFile = HistFile.unreadable) :
    mainRun env = mainRun { env with histFile := HistFile.absent } := by
  cases env with
  | mk uo un cl hf k a ho j cf t1 t2 =>
    simp only at h
    subst h
    simp only [mainRun, loadStoredData]
    rw [loadSSHConfig_unreadable
      (Env.mk uo un cl HistFile.unreadable k a ho j cf t1 t2) rfl]

/-- Claim C8, counterexample: a readable file holding the valid JSON
document with a type-mismatched keys field and a well-formed hosts field
loads with a descriptive parse error but with NON-empty data — Go's
`json.Unmarshal` skips the mismatched field, decodes the rest, and the
code returns that partially-filled data alongside the error, so load does
not return an empty `StoredData` on every parse failure as claimed. -/
theorem C8_counterexample :
    (loadStoredData (HistFile.valid (JsonVal.obj [("keys", JsonVal.num 5),
        ("hosts", JsonVal.arr [JsonVal.obj [("value", JsonVal.str "h1"),
          ("last_used", JsonVal.num 7), ("created_at", JsonVal.num 7)]])]))).2 =
      some LoadErr.parseFailed ∧
    (loadStoredData (HistFile.valid (JsonVal.obj [("keys", JsonVal.num 5),
        ("hosts", JsonVal.arr [JsonVal.obj [("value", JsonVal.str "h1"),
          ("last_used", JsonVal.num 7), ("created_at", JsonVal.num 7)]])]))).1 ≠
      emptyStoredData ∧
    (loadStoredData (HistFile.valid (JsonVal.obj [("keys", JsonVal.num 5),
        ("hosts", JsonVal.arr [JsonVal.obj [("value", JsonVal.str "h1"),
          ("last_used", JsonVal.num 7), ("created_at", JsonVal.num 7)]])]))).1.hosts =
      [⟨"h1", 7, 7⟩] := by
  refine ⟨by decide, by decide, by decide⟩

/-- Claim C8 (amended): an absent history file loads as empty data with no
error; an unreadable file, or one that is not syntactically valid JSON,
loads as empty data with a descriptive error; a well-formed JSON document
is decoded best-effort — the load returns the (possibly partially filled,
possibly non-empty) decoded data, with a parse error exactly when the
decoder saved one, and fields missing from the document are zero-filled
with no error at all.  The caller ignores the error and continues with
whatever data was returned rather than aborting: a run with an unreadable
file is identical to the run with the file absent. -/
theorem C8_thm :
    loadStoredData HistFile.absent = (emptyStoredData, none) ∧
    (loadStoredData HistFile.unreadable).1 = emptyStoredData ∧
    (loadStoredData HistFile.unreadable).2.isSome = true ∧
    (loadStoredData HistFile.invalid).1 = emptyStoredData ∧
    (loadStoredData HistFile.invalid).2.isSome = true ∧
    (∀ j : JsonVal, (loadStoredData (HistFile.valid j)).1 = (unmarshalStoredData j).1 ∧
      (loadStoredData (HistFile.valid j)).2.isSome = (unmarshalStoredData j).2) ∧
    loadStoredData (HistFile.valid (JsonVal.obj [("keys",
        JsonVal.arr [JsonVal.obj [("value", JsonVal.str "k")]])])) =
      (⟨[⟨"k", 0, 0⟩], [], [], []⟩, none) ∧
    (∀ env : Env, env.histFile = HistFile.unreadable →
      mainRun env = mainRun { env with histFile := HistFile.absent }) := by
  refine ⟨rfl, rfl, rfl, rfl, rfl, ?_, by decide, mainRun_unreadable⟩
  intro j
  refine ⟨rfl, ?_⟩
  simp only [loadStoredData]
  cases (unmarshalStoredData j).2 <;> rfl

/-- Witness for C8 on a concrete run with an unreadable history file. -/
theorem C8_witness :
    mainRun envC8w = mainRun { envC8w with histFile := HistFile.absent } :=
  C8_thm.2.2.2.2.2.2.2 envC8w rfl

/-- Witness for C2: on a concrete run choosing the synthetic key, the saved
key history equals the (empty) loaded key history. -/
theorem C2_witness :
    (⟨[], [⟨"svc", 0, 0⟩], [⟨"h1", 0, 0⟩], []⟩ : StoredData).keys =
      (loadStoredData envC2w.histFile).1.keys :=
  (C2_thm envC2w rfl (by decide)).2
    ⟨[], [⟨"svc", 0, 0⟩], [⟨"h1", 0, 0⟩], []⟩ ("alice@svc@h1") false (by decide)

/-- Witness for C9 on a concrete run with an empty jump selection. -/
theorem C9_witness :
    (⟨[], [⟨"svc", 0, 0⟩], [⟨"h1", 0, 0⟩], []⟩ : StoredData).jumps =
        (loadStoredData envC9w.histFile).1.jumps ∧
      (emptyStr ∉ (loadStoredData envC9w.histFile).1.jumps.map StoredEntry.value →
        emptyStr ∉ (⟨[], [⟨"svc", 0, 0⟩], [⟨"h1", 0, 0⟩], []⟩ : StoredData).jumps.map
          StoredEntry.value) :=
  C9_thm envC9w (by decide)
    ⟨[], [⟨"svc", 0, 0⟩], [⟨"h1", 0, 0⟩], []⟩ ("alice@svc@h1") false (by decide)
